import Mathlib

/-!
Verification development for the CognitoMarket prediction-market engine.

The repository ships the frontend (Next.js data-access layer and
components), the Anchor end-to-end test suite (`tests/capstone2.ts`) and
the README describing the on-chain program; the Rust program itself
(`programs/capstone2/src/lib.rs`) is not part of the source tree.  The
engine's data model and operations below are therefore modelled from the
specification (account structs from the README, the AMM algorithm of
spec §4.2, the lifecycle rules of §4.3–§4.5 and the error taxonomy of
§7).  The PDA-seed derivations, the frontend claim-button predicate and
the frontend price helper are embedded directly from the TypeScript
sources.

Conventions: u64 quantities are `Nat` with explicit `U64max` overflow
checks (the README promises "integer overflow protection with checked
math"); identities (public keys) are `Nat`; every operation is a total
function `Chain → Except Err Chain`, and the committed step `applyOp`
keeps the old state whenever the operation returns an error, which is
the all-or-nothing commit discipline of spec §5.
-/

namespace CognitoMarket

/-- Largest representable u64 value. -/
def U64max : Nat := 2 ^ 64 - 1

/-- Modelled from the spec: the `Config` account of the README
(`authority`, `market_count`, `fee_percentage` in basis points). -/
structure Config where
  authority : Nat
  market_count : Nat
  fee_bps : Nat
  deriving Repr, DecidableEq

/-- Modelled from the spec: the `Market` account of the README
(`market_id`, pool balances, `k_constant`, `total_volume`,
`resolution_time`, `resolved`, `outcome`), plus the per-side share
totals that §4.4's proportional payout is computed from (the README
elides them as "... other fields"). Text fields are omitted: no claim
mentions them. -/
structure Market where
  market_id : Nat
  yes_liquidity : Nat
  no_liquidity : Nat
  k_constant : Nat
  total_volume : Nat
  resolution_time : Nat
  resolved : Bool
  outcome : Option Bool
  total_yes_shares : Nat
  total_no_shares : Nat
  deriving Repr, DecidableEq

/-- Modelled from the spec: the `UserPosition` account of the README
(`user`, `market_id`, `yes_shares`, `no_shares`, `claimed`). -/
structure Position where
  user : Nat
  market_id : Nat
  yes_shares : Nat
  no_shares : Nat
  claimed : Bool
  deriving Repr, DecidableEq

/-- Modelled from the spec: the global ledger an operation executes
against — the singleton Config, the Market records, the per-market Vault
balances, the protocol-wide FeeVault, the UserPosition records, the
callers' wallet balances and the current time. -/
structure Chain where
  config : Config
  markets : Nat → Option Market
  positions : Nat × Nat → Option Position
  vault : Nat → Nat
  feeVault : Nat
  userBalance : Nat → Nat
  now : Nat

/-- Modelled from the spec: error taxonomy of §7. -/
inductive Err where
  | Unauthorized
  | MarketExpired
  | MarketAlreadyResolved
  | MarketNotResolved
  | ResolutionTooEarly
  | SlippageExceeded
  | NotAWinner
  | AlreadyClaimed
  | DegeneratePool
  | ArithmeticOverflow
  | AccountMismatch
  | InsufficientFunds
  deriving Repr, DecidableEq

/-- Result of the pure AMM trade computation (spec §4.2 steps 1–6). -/
structure TradeResult where
  fee : Nat
  net : Nat
  new_in_pool : Nat
  new_out_pool : Nat
  shares_out : Nat
  deriving Repr, DecidableEq

/-- Modelled from the spec: the AMM pricing algorithm of §4.2 —
`fee = floor(amount * fee_bps / 10000)`, `net = amount - fee`,
`new_in_pool = in_pool + net`,
`new_out_pool = floor((in_pool * out_pool) / new_in_pool)`,
`shares_out = out_pool - new_out_pool`. -/
def calcTrade (in_pool out_pool amount fee_bps : Nat) : TradeResult :=
  let fee := amount * fee_bps / 10000
  let net := amount - fee
  let new_in_pool := in_pool + net
  let new_out_pool := in_pool * out_pool / new_in_pool
  { fee := fee
    net := net
    new_in_pool := new_in_pool
    new_out_pool := new_out_pool
    shares_out := out_pool - new_out_pool }

/-- The instantaneous YES price reported to the outside world
(spec §4.2): `yes_price = yes_liquidity / (yes_liquidity + no_liquidity)`,
as an exact rational. -/
def yesPriceQ (yes_liquidity no_liquidity : Nat) : ℚ :=
  (yes_liquidity : ℚ) / ((yes_liquidity : ℚ) + (no_liquidity : ℚ))

/-- Embedded from `src/unnamed/part_004` (`getPrice` helper of the
market components): either pool at zero reports price 1/2 by
convention, otherwise `yes / (yes + no)`. -/
def getPrice (yesLiquidity noLiquidity : Nat) : ℚ :=
  if yesLiquidity = 0 ∨ noLiquidity = 0 then 1 / 2
  else yesPriceQ yesLiquidity noLiquidity

/-- Modelled from the spec: `create_market` (§4.3, §6) — authority-only
per the README, fresh `market_id`, pools seeded with `initial_liquidity`
on both sides, `k_constant = initial_liquidity^2`, `resolved = false`;
the authority funds the two-sided seed into the market vault.  A zero
seed is rejected so the engine never creates a degenerate pool (§4.2). -/
def createMarket (s : Chain) (signer mid resolution_time initLiq : Nat) :
    Except Err Chain :=
  if signer ≠ s.config.authority then .error .Unauthorized
  else match s.markets mid with
  | some _ => .error .AccountMismatch
  | none =>
    if initLiq = 0 then .error .DegeneratePool
    else if U64max < initLiq then .error .ArithmeticOverflow
    else if s.userBalance signer < 2 * initLiq then .error .InsufficientFunds
    else
      .ok { s with
        config := { s.config with market_count := s.config.market_count + 1 }
        markets := fun i => if i = mid then
          some { market_id := mid
                 yes_liquidity := initLiq
                 no_liquidity := initLiq
                 k_constant := initLiq * initLiq
                 total_volume := 0
                 resolution_time := resolution_time
                 resolved := false
                 outcome := none
                 total_yes_shares := 0
                 total_no_shares := 0 }
          else s.markets i
        vault := fun i => if i = mid then 2 * initLiq else s.vault i
        userBalance := fun u =>
          if u = signer then s.userBalance u - 2 * initLiq else s.userBalance u }

/-- Modelled from the spec: the state committed by a successful
`buy_shares` (§4.2 step 8) — pools replaced by the trade result,
`k_constant` recomputed as `new_in_pool * new_out_pool`,
`total_volume += amount`, vault credited with the net amount, FeeVault
credited with the fee, the caller debited `amount`, and the caller's
position (created lazily) credited `shares_out` on the bought side. -/
def buyCommit (s : Chain) (user mid : Nat) (isYes : Bool) (amount : Nat)
    (m : Market) (r : TradeResult) : Chain :=
  let p0 := (s.positions (user, mid)).getD
    { user := user, market_id := mid, yes_shares := 0, no_shares := 0,
      claimed := false }
  { s with
    markets := fun i => if i = mid then
      some { m with
        yes_liquidity := if isYes then r.new_in_pool else r.new_out_pool
        no_liquidity := if isYes then r.new_out_pool else r.new_in_pool
        k_constant := r.new_in_pool * r.new_out_pool
        total_volume := m.total_volume + amount
        total_yes_shares :=
          if isYes then m.total_yes_shares + r.shares_out
          else m.total_yes_shares
        total_no_shares :=
          if isYes then m.total_no_shares
          else m.total_no_shares + r.shares_out }
      else s.markets i
    positions := fun k => if k = (user, mid) then
      some (if isYes then { p0 with yes_shares := p0.yes_shares + r.shares_out }
            else { p0 with no_shares := p0.no_shares + r.shares_out })
      else s.positions k
    vault := fun i => if i = mid then s.vault i + r.net else s.vault i
    feeVault := s.feeVault + r.fee
    userBalance := fun u =>
      if u = user then s.userBalance u - amount else s.userBalance u }

/-- Modelled from the spec: `buy_shares` (§4.2 steps 1–8, §4.3) — legal
only while unresolved and before `resolution_time`; the caller must be
able to fund `amount`; the trade is priced by `calcTrade`; the trade is
rejected on u64 overflow, on a degenerate (zeroed) pool, and below the
caller's slippage floor; on success pools, `k_constant`, `total_volume`,
vault, FeeVault, the caller's wallet and the caller's lazily-created
position are committed together. -/
def buyShares (s : Chain) (user mid : Nat) (isYes : Bool)
    (amount minSharesOut : Nat) : Except Err Chain :=
  match s.markets mid with
  | none => .error .AccountMismatch
  | some m =>
    if m.resolved then .error .MarketAlreadyResolved
    else if m.resolution_time ≤ s.now then .error .MarketExpired
    else if s.userBalance user < amount then .error .InsufficientFunds
    else
      let in_pool := if isYes then m.yes_liquidity else m.no_liquidity
      let out_pool := if isYes then m.no_liquidity else m.yes_liquidity
      let r := calcTrade in_pool out_pool amount s.config.fee_bps
      if amount < r.fee then .error .ArithmeticOverflow
      else if U64max < r.new_in_pool then .error .ArithmeticOverflow
      else if U64max < m.total_volume + amount then .error .ArithmeticOverflow
      else if r.new_in_pool = 0 ∨ r.new_out_pool = 0 then .error .DegeneratePool
      else if r.shares_out < minSharesOut then .error .SlippageExceeded
      else .ok (buyCommit s user mid isYes amount m r)

/-- Modelled from the spec: `resolve_market` (§4.3) — fails on an
already-resolved market, requires the protocol authority's signature
and `now ≥ resolution_time` (the defensive time gate of §9); on success
sets `resolved = true` and `outcome` exactly once. -/
def resolveMarket (s : Chain) (signer mid : Nat) (oc : Bool) :
    Except Err Chain :=
  match s.markets mid with
  | none => .error .AccountMismatch
  | some m =>
    if m.resolved then .error .MarketAlreadyResolved
    else if signer ≠ s.config.authority then .error .Unauthorized
    else if s.now < m.resolution_time then .error .ResolutionTooEarly
    else
      .ok { s with
        markets := fun i => if i = mid then
          some { m with resolved := true, outcome := some oc }
          else s.markets i }

/-- The winning test of spec §4.4: a position wins iff
`(outcome == true && yes_shares > 0) || (outcome == false && no_shares > 0)`. -/
def winningB (oc : Option Bool) (p : Position) : Bool :=
  match oc with
  | some true => decide (0 < p.yes_shares)
  | some false => decide (0 < p.no_shares)
  | none => false

/-- Modelled from the spec: the state committed by a successful
`claim_winnings` (§4.4) — the payout leaves the vault for the caller's
wallet and `claimed` flips to `true`, in one commit. -/
def claimCommit (s : Chain) (user mid : Nat) (p : Position) (payout : Nat) :
    Chain :=
  { s with
    positions := fun k => if k = (user, mid) then
      some { p with claimed := true } else s.positions k
    vault := fun i => if i = mid then s.vault i - payout else s.vault i
    userBalance := fun u =>
      if u = user then s.userBalance u + payout else s.userBalance u }

/-- Modelled from the spec: `claim_winnings` (§4.4) — legal only when
the market is resolved and the caller's position is unclaimed; a losing
or empty position fails `NotAWinner`; a winning position is paid
`floor(winning_shares * vault / total_winning_shares)` from the vault,
and `claimed` flips to `true` in the same commit as the transfer. -/
def claimWinnings (s : Chain) (user mid : Nat) : Except Err Chain :=
  match s.markets mid with
  | none => .error .AccountMismatch
  | some m =>
    if ¬ m.resolved then .error .MarketNotResolved
    else match s.positions (user, mid) with
    | none => .error .AccountMismatch
    | some p =>
      if p.claimed then .error .AlreadyClaimed
      else if ¬ winningB m.outcome p then .error .NotAWinner
      else
        let totalWin := if m.outcome = some true then m.total_yes_shares
                        else m.total_no_shares
        let winShares := if m.outcome = some true then p.yes_shares
                         else p.no_shares
        if totalWin = 0 then .error .ArithmeticOverflow
        else
          let payout := winShares * s.vault mid / totalWin
          if s.vault mid < payout then .error .InsufficientFunds
          else .ok (claimCommit s user mid p payout)

/-- Modelled from the spec: `sweep_funds` (§4.3, §6) — authority-only,
legal only once the market is resolved; drains the market vault to the
authority. -/
def sweepFunds (s : Chain) (signer mid : Nat) : Except Err Chain :=
  if signer ≠ s.config.authority then .error .Unauthorized
  else match s.markets mid with
  | none => .error .AccountMismatch
  | some m =>
    if ¬ m.resolved then .error .MarketNotResolved
    else
      .ok { s with
        vault := fun i => if i = mid then 0 else s.vault i
        userBalance := fun u =>
          if u = signer then s.userBalance u + s.vault mid else s.userBalance u }

/-- Modelled from the spec: `withdraw_fees` (§6) — authority-only drain
of the protocol-wide FeeVault. -/
def withdrawFees (s : Chain) (signer : Nat) : Except Err Chain :=
  if signer ≠ s.config.authority then .error .Unauthorized
  else
    .ok { s with
      feeVault := 0
      userBalance := fun u =>
        if u = signer then s.userBalance u + s.feeVault else s.userBalance u }

/-- The engine's operations (spec §6), excluding the one-shot
`initialize` whose effect is the `Chain.config` record itself. -/
inductive Op where
  | createMarket (signer mid resolution_time initLiq : Nat)
  | buyShares (user mid : Nat) (isYes : Bool) (amount minSharesOut : Nat)
  | resolveMarket (signer mid : Nat) (oc : Bool)
  | claimWinnings (user mid : Nat)
  | sweepFunds (signer mid : Nat)
  | withdrawFees (signer : Nat)

/-- Run one operation, returning the committed state or the error that
aborted it. -/
def runOp (op : Op) (s : Chain) : Except Err Chain :=
  match op with
  | .createMarket signer mid rt initLiq => createMarket s signer mid rt initLiq
  | .buyShares user mid isYes amount minSharesOut =>
      buyShares s user mid isYes amount minSharesOut
  | .resolveMarket signer mid oc => resolveMarket s signer mid oc
  | .claimWinnings user mid => claimWinnings s user mid
  | .sweepFunds signer mid => sweepFunds s signer mid
  | .withdrawFees signer => withdrawFees s signer

/-- The all-or-nothing commit of spec §5: a failed operation leaves the
ledger as it was. -/
def applyOp (op : Op) (s : Chain) : Chain :=
  match runOp op s with
  | .ok s' => s'
  | .error _ => s

/-- `true` exactly when the operation commits rather than aborting. -/
def succeeds (op : Op) (s : Chain) : Bool :=
  match runOp op s with
  | .ok _ => true
  | .error _ => false

theorem succeeds_iff_ok {op : Op} {s : Chain} :
    succeeds op s = true ↔ ∃ s', runOp op s = .ok s' := by
  unfold succeeds
  cases h : runOp op s <;> simp

theorem applyOp_eq_of_ok {op : Op} {s s' : Chain}
    (h : runOp op s = .ok s') : applyOp op s = s' := by
  simp [applyOp, h]

theorem applyOp_eq_of_error {op : Op} {s : Chain} {e : Err}
    (h : runOp op s = .error e) : applyOp op s = s := by
  simp [applyOp, h]

/-- Inversion for a successful `buy_shares`: every guard passed and the
committed state is exactly `buyCommit`. -/
theorem buyShares_ok_elim {s : Chain} {user mid : Nat} {isYes : Bool}
    {amount minSharesOut : Nat} {s' : Chain}
    (h : buyShares s user mid isYes amount minSharesOut = .ok s') :
    ∃ m r, s.markets mid = some m ∧
      r = calcTrade (if isYes then m.yes_liquidity else m.no_liquidity)
            (if isYes then m.no_liquidity else m.yes_liquidity) amount
            s.config.fee_bps ∧
      m.resolved = false ∧
      s.now < m.resolution_time ∧
      amount ≤ s.userBalance user ∧
      r.fee ≤ amount ∧
      r.new_in_pool ≠ 0 ∧
      r.new_out_pool ≠ 0 ∧
      minSharesOut ≤ r.shares_out ∧
      s' = buyCommit s user mid isYes amount m r := by
  unfold buyShares at h
  split at h
  · exact Except.noConfusion h
  next m hm =>
    split at h
    · exact Except.noConfusion h
    next hres =>
      split at h
      · exact Except.noConfusion h
      next hexp =>
        split at h
        · exact Except.noConfusion h
        next hfund =>
          dsimp only at h
          set ip := if isYes = true then m.yes_liquidity else m.no_liquidity
          set op2 := if isYes = true then m.no_liquidity else m.yes_liquidity
          set r := calcTrade ip op2 amount s.config.fee_bps with hr
          split at h
          · exact Except.noConfusion h
          next hfee =>
            split at h
            · exact Except.noConfusion h
            next =>
              split at h
              · exact Except.noConfusion h
              next =>
                split at h
                · exact Except.noConfusion h
                next hdeg =>
                  split at h
                  · exact Except.noConfusion h
                  next hslip =>
                    refine ⟨m, r, hm, hr, ?_, ?_, ?_, ?_, ?_, ?_, ?_, ?_⟩
                    · simpa using hres
                    · exact Nat.not_le.mp hexp
                    · exact Nat.not_lt.mp hfund
                    · exact Nat.not_lt.mp hfee
                    · exact fun hz => hdeg (Or.inl hz)
                    · exact fun hz => hdeg (Or.inr hz)
                    · exact Nat.not_lt.mp hslip
                    · exact (Except.ok.inj h).symm

/-- Inversion for a successful `resolve_market`: the market was open,
the signer was the authority, the deadline had passed, and the committed
state holds the resolved market with the supplied outcome. -/
theorem resolveMarket_ok_elim {s : Chain} {signer mid : Nat} {oc : Bool}
    {s' : Chain} (h : resolveMarket s signer mid oc = .ok s') :
    ∃ m, s.markets mid = some m ∧ m.resolved = false ∧
      signer = s.config.authority ∧ m.resolution_time ≤ s.now ∧
      s' = { s with markets := fun i =>
        (if i = mid then
          some { m with resolved := true, outcome := some oc }
        else s.markets i) } := by
  unfold resolveMarket at h
  split at h
  · exact Except.noConfusion h
  next m hm =>
    split at h
    · exact Except.noConfusion h
    next hres =>
      split at h
      · exact Except.noConfusion h
      next hsig =>
        split at h
        · exact Except.noConfusion h
        next htime =>
          exact ⟨m, hm, by simpa using hres, by simpa using hsig,
            Nat.not_lt.mp htime, (Except.ok.inj h).symm⟩

/-- Inversion for a successful `claim_winnings`: the market was
resolved, the caller held an unclaimed winning position, and the
committed state is `claimCommit` with a payout covered by the vault. -/
theorem claimWinnings_ok_elim {s : Chain} {user mid : Nat} {s' : Chain}
    (h : claimWinnings s user mid = .ok s') :
    ∃ m p, s.markets mid = some m ∧ s.positions (user, mid) = some p ∧
      m.resolved = true ∧ p.claimed = false ∧ winningB m.outcome p = true ∧
      ∃ payout, payout ≤ s.vault mid ∧
        s' = claimCommit s user mid p payout := by
  unfold claimWinnings at h
  split at h
  · exact Except.noConfusion h
  next m hm =>
    split at h
    · exact Except.noConfusion h
    next hres =>
      split at h
      · exact Except.noConfusion h
      next p hp =>
        split at h
        · exact Except.noConfusion h
        next hcl =>
          split at h
          · exact Except.noConfusion h
          next hwin =>
            dsimp only at h
            set totalWin := if m.outcome = some true then m.total_yes_shares
              else m.total_no_shares
            set winShares := if m.outcome = some true then p.yes_shares
              else p.no_shares
            split at h
            · exact Except.noConfusion h
            next hz =>
              split at h
              · exact Except.noConfusion h
              next hvp =>
                exact ⟨m, p, hm, hp, by simpa using hres, by simpa using hcl,
                  by simpa using hwin, winShares * s.vault mid / totalWin,
                  Nat.not_lt.mp hvp, (Except.ok.inj h).symm⟩

/-- C1: the worked pricing scenario of spec §8 evaluated on `calcTrade`
with the fee ignored (`fee_bps = 0`). -/
theorem scenario_pricing_example :
    (calcTrade 100000000 100000000 50000000 0).new_in_pool = 150000000 ∧
    (calcTrade 100000000 100000000 50000000 0).new_out_pool = 66666666 ∧
    (calcTrade 100000000 100000000 50000000 0).shares_out = 33333334 ∧
    (692 : ℚ) / 1000 < yesPriceQ 150000000 66666666 ∧
    yesPriceQ 150000000 66666666 < (693 : ℚ) / 1000 := by
  refine ⟨by norm_num [calcTrade], by norm_num [calcTrade], by norm_num [calcTrade], ?_, ?_⟩ <;>
    · rw [yesPriceQ]
      norm_num

/-- A pool with both sides positive reports a price strictly inside
`(0,1)`. -/
theorem yesPriceQ_mem_unit {a b : Nat} (ha : 0 < a) (hb : 0 < b) :
    0 < yesPriceQ a b ∧ yesPriceQ a b < 1 := by
  unfold yesPriceQ
  have h1 : (0 : ℚ) < (a : ℚ) := by exact_mod_cast ha
  have h2 : (0 : ℚ) < (b : ℚ) := by exact_mod_cast hb
  refine ⟨div_pos h1 (by linarith), ?_⟩
  rw [div_lt_one (by linarith)]
  linarith

/-- A concrete open market used to exercise the operations. -/
def market1 : Market :=
  { market_id := 1, yes_liquidity := 100, no_liquidity := 100,
    k_constant := 10000, total_volume := 0, resolution_time := 100,
    resolved := false, outcome := none, total_yes_shares := 0,
    total_no_shares := 0 }

/-- A concrete near-empty open market whose next trade would floor its
opposite pool to zero. -/
def market2 : Market :=
  { market_id := 2, yes_liquidity := 1, no_liquidity := 1,
    k_constant := 1, total_volume := 0, resolution_time := 100,
    resolved := false, outcome := none, total_yes_shares := 0,
    total_no_shares := 0 }

/-- A concrete ledger holding `market1` and `market2`, funded traders
and a 2% fee configuration. -/
def chain0 : Chain :=
  { config := { authority := 1, market_count := 2, fee_bps := 200 }
    markets := fun i =>
      if i = 1 then some market1 else if i = 2 then some market2 else none
    positions := fun _ => none
    vault := fun i => if i = 1 then 200 else if i = 2 then 2 else 0
    feeVault := 0
    userBalance := fun _ => 1000
    now := 10 }

/-- C2: a successful `buy_shares` moves the caller's whole `amount`
into engine escrow — the market vault plus the FeeVault gain exactly
`amount`, with the fee portion `floor(amount * fee_bps / 10000)`
credited to the FeeVault; nothing vanishes. -/
theorem buy_conserves_vault_and_fee (s : Chain) (user mid : Nat)
    (isYes : Bool) (amount minSharesOut : Nat)
    (h : succeeds (.buyShares user mid isYes amount minSharesOut) s = true) :
    (applyOp (.buyShares user mid isYes amount minSharesOut) s).vault mid +
        (applyOp (.buyShares user mid isYes amount minSharesOut) s).feeVault =
      (s.vault mid + s.feeVault) + amount ∧
    (applyOp (.buyShares user mid isYes amount minSharesOut) s).feeVault =
      s.feeVault + amount * s.config.fee_bps / 10000 := by
  obtain ⟨s', hs'⟩ := succeeds_iff_ok.mp h
  rw [applyOp_eq_of_ok hs']
  simp only [runOp] at hs'
  obtain ⟨m, r, hm, hr, -, -, -, hfee, -, -, -, hcommit⟩ :=
    buyShares_ok_elim hs'
  subst hcommit
  have hfe : r.fee = amount * s.config.fee_bps / 10000 := by rw [hr]; rfl
  have hnet : r.net = amount - r.fee := by rw [hr]; rfl
  constructor
  · simp only [buyCommit]
    simp
    omega
  · simp only [buyCommit]
    rw [hfe]

/-- C2 witness: the conservation law evaluated on a concrete trade. -/
theorem buy_conserves_vault_and_fee_witness :
    (applyOp (.buyShares 5 1 true 10 0) chain0).vault 1 +
        (applyOp (.buyShares 5 1 true 10 0) chain0).feeVault =
      (chain0.vault 1 + chain0.feeVault) + 10 ∧
    (applyOp (.buyShares 5 1 true 10 0) chain0).feeVault =
      chain0.feeVault + 10 * chain0.config.fee_bps / 10000 :=
  buy_conserves_vault_and_fee chain0 5 1 true 10 0 rfl

/-- C3: every operation that aborts with an error commits nothing — the
ledger after the attempt is exactly the ledger before it. -/
theorem failed_op_no_mutation (op : Op) (s : Chain) (e : Err)
    (h : runOp op s = .error e) : applyOp op s = s := by
  simp [applyOp, h]

/-- C3 witness: an unauthorized resolution attempt fails and leaves the
concrete ledger untouched. -/
theorem failed_op_no_mutation_witness :
    runOp (.resolveMarket 2 1 true) chain0 = .error .Unauthorized ∧
    applyOp (.resolveMarket 2 1 true) chain0 = chain0 :=
  ⟨rfl, failed_op_no_mutation (.resolveMarket 2 1 true) chain0 .Unauthorized rfl⟩

/-- C4: after every successful `buy_shares` both pools are positive and
the reported YES price lies strictly between 0 and 1; and a trade whose
constant-product output would floor a pool to zero is rejected with no
mutation. -/
theorem buy_pools_stay_positive (s : Chain) (user mid : Nat) (isYes : Bool)
    (amount minSharesOut : Nat) :
    (succeeds (.buyShares user mid isYes amount minSharesOut) s = true →
      ∃ m, (applyOp (.buyShares user mid isYes amount minSharesOut) s).markets
            mid = some m ∧
        0 < m.yes_liquidity ∧ 0 < m.no_liquidity ∧
        0 < yesPriceQ m.yes_liquidity m.no_liquidity ∧
        yesPriceQ m.yes_liquidity m.no_liquidity < 1) ∧
    (∀ m, s.markets mid = some m →
      (calcTrade (if isYes then m.yes_liquidity else m.no_liquidity)
          (if isYes then m.no_liquidity else m.yes_liquidity) amount
          s.config.fee_bps).new_out_pool = 0 →
      succeeds (.buyShares user mid isYes amount minSharesOut) s = false ∧
      applyOp (.buyShares user mid isYes amount minSharesOut) s = s) := by
  constructor
  · intro h
    obtain ⟨s', hs'⟩ := succeeds_iff_ok.mp h
    rw [applyOp_eq_of_ok hs']
    simp only [runOp] at hs'
    obtain ⟨m, r, hm, hr, -, -, -, -, hin, hout, -, hcommit⟩ :=
      buyShares_ok_elim hs'
    subst hcommit
    have hmk : (buyCommit s user mid isYes amount m r).markets mid =
        some { m with
          yes_liquidity := if isYes then r.new_in_pool else r.new_out_pool
          no_liquidity := if isYes then r.new_out_pool else r.new_in_pool
          k_constant := r.new_in_pool * r.new_out_pool
          total_volume := m.total_volume + amount
          total_yes_shares :=
            if isYes then m.total_yes_shares + r.shares_out
            else m.total_yes_shares
          total_no_shares :=
            if isYes then m.total_no_shares
            else m.total_no_shares + r.shares_out } := by
      simp [buyCommit]
    have hy : 0 < (if isYes then r.new_in_pool else r.new_out_pool) := by
      cases isYes
      · simpa using Nat.pos_of_ne_zero hout
      · simpa using Nat.pos_of_ne_zero hin
    have hn : 0 < (if isYes then r.new_out_pool else r.new_in_pool) := by
      cases isYes
      · simpa using Nat.pos_of_ne_zero hin
      · simpa using Nat.pos_of_ne_zero hout
    exact ⟨_, hmk, hy, hn, (yesPriceQ_mem_unit hy hn).1,
      (yesPriceQ_mem_unit hy hn).2⟩
  · intro m hm hzero
    cases hrun : runOp (.buyShares user mid isYes amount minSharesOut) s with
    | error e =>
        exact ⟨by simp [succeeds, hrun], applyOp_eq_of_error hrun⟩
    | ok s' =>
        exfalso
        simp only [runOp] at hrun
        obtain ⟨m', r, hm', hr, -, -, -, -, -, hout, -, -⟩ :=
          buyShares_ok_elim hrun
        obtain rfl : m' = m := Option.some.inj (hm'.symm.trans hm)
        rw [← hr] at hzero
        exact hout hzero

/-- C4 witness: a concrete successful trade keeps both pools positive,
and a concrete pool-flooring trade is rejected without mutation. -/
theorem buy_pools_stay_positive_witness :
    (∃ m, (applyOp (.buyShares 5 1 true 10 0) chain0).markets 1 = some m ∧
      0 < m.yes_liquidity ∧ 0 < m.no_liquidity ∧
      0 < yesPriceQ m.yes_liquidity m.no_liquidity ∧
      yesPriceQ m.yes_liquidity m.no_liquidity < 1) ∧
    (succeeds (.buyShares 5 2 true 10 0) chain0 = false ∧
      applyOp (.buyShares 5 2 true 10 0) chain0 = chain0) :=
  ⟨(buy_pools_stay_positive chain0 5 1 true 10 0).1 rfl,
   (buy_pools_stay_positive chain0 5 2 true 10 0).2 market2 rfl rfl⟩

/-- C9: `new_in_pool * new_out_pool` never exceeds the pre-trade
product `in_pool * out_pool` (floor rounding only drifts it downward),
and after every successful trade the stored `k_constant` equals the
product of the committed pools. -/
theorem k_constant_tracks_pools :
    (∀ in_pool out_pool amount fee_bps : Nat,
      (calcTrade in_pool out_pool amount fee_bps).new_in_pool *
          (calcTrade in_pool out_pool amount fee_bps).new_out_pool ≤
        in_pool * out_pool) ∧
    (∀ (s : Chain) (user mid : Nat) (isYes : Bool)
        (amount minSharesOut : Nat),
      succeeds (.buyShares user mid isYes amount minSharesOut) s = true →
      ∃ m, (applyOp (.buyShares user mid isYes amount minSharesOut) s).markets
            mid = some m ∧
        m.k_constant = m.yes_liquidity * m.no_liquidity) := by
  constructor
  · intro in_pool out_pool amount fee_bps
    show (in_pool + (amount - amount * fee_bps / 10000)) *
        (in_pool * out_pool / (in_pool + (amount - amount * fee_bps / 10000))) ≤
      in_pool * out_pool
    calc (in_pool + (amount - amount * fee_bps / 10000)) *
          (in_pool * out_pool / (in_pool + (amount - amount * fee_bps / 10000)))
        = (in_pool * out_pool / (in_pool + (amount - amount * fee_bps / 10000))) *
            (in_pool + (amount - amount * fee_bps / 10000)) := Nat.mul_comm _ _
      _ ≤ in_pool * out_pool := Nat.div_mul_le_self _ _
  · intro s user mid isYes amount minSharesOut h
    obtain ⟨s', hs'⟩ := succeeds_iff_ok.mp h
    rw [applyOp_eq_of_ok hs']
    simp only [runOp] at hs'
    obtain ⟨m, r, hm, hr, -, -, -, -, -, -, -, hcommit⟩ :=
      buyShares_ok_elim hs'
    subst hcommit
    have hmk : (buyCommit s user mid isYes amount m r).markets mid =
        some { m with
          yes_liquidity := if isYes then r.new_in_pool else r.new_out_pool
          no_liquidity := if isYes then r.new_out_pool else r.new_in_pool
          k_constant := r.new_in_pool * r.new_out_pool
          total_volume := m.total_volume + amount
          total_yes_shares :=
            if isYes then m.total_yes_shares + r.shares_out
            else m.total_yes_shares
          total_no_shares :=
            if isYes then m.total_no_shares
            else m.total_no_shares + r.shares_out } := by
      simp [buyCommit]
    refine ⟨_, hmk, ?_⟩
    cases isYes
    · simpa using Nat.mul_comm r.new_in_pool r.new_out_pool
    · simp

/-- C9 witness: the product law at a concrete trade and the stored
`k_constant` of a concrete committed market. -/
theorem k_constant_tracks_pools_witness :
    ((calcTrade 100 100 50 0).new_in_pool *
        (calcTrade 100 100 50 0).new_out_pool ≤ 100 * 100) ∧
    (∃ m, (applyOp (.buyShares 6 1 false 10 0) chain0).markets 1 = some m ∧
      m.k_constant = m.yes_liquidity * m.no_liquidity) :=
  ⟨k_constant_tracks_pools.1 100 100 50 0,
   k_constant_tracks_pools.2 chain0 6 1 false 10 0 rfl⟩

/-- A concrete resolved YES market with recorded winning-side totals. -/
def market3 : Market :=
  { market_id := 3, yes_liquidity := 110, no_liquidity := 90,
    k_constant := 9900, total_volume := 20, resolution_time := 5,
    resolved := true, outcome := some true, total_yes_shares := 50,
    total_no_shares := 40 }

/-- A concrete open market whose resolution deadline has passed. -/
def market4 : Market :=
  { market_id := 4, yes_liquidity := 60, no_liquidity := 40,
    k_constant := 2400, total_volume := 10, resolution_time := 5,
    resolved := false, outcome := none, total_yes_shares := 3,
    total_no_shares := 2 }

/-- The winning position on `market3`. -/
def pos7 : Position :=
  { user := 7, market_id := 3, yes_shares := 50, no_shares := 0,
    claimed := false }

/-- The losing position on `market3`. -/
def pos8 : Position :=
  { user := 8, market_id := 3, yes_shares := 0, no_shares := 40,
    claimed := false }

/-- A concrete ledger after resolution: `market3` resolved YES with a
winner and a loser, `market4` open past its deadline. -/
def chain1 : Chain :=
  { config := { authority := 1, market_count := 4, fee_bps := 200 }
    markets := fun i =>
      if i = 3 then some market3 else if i = 4 then some market4 else none
    positions := fun k =>
      if k = (7, 3) then some pos7
      else if k = (8, 3) then some pos8 else none
    vault := fun i => if i = 3 then 300 else if i = 4 then 100 else 0
    feeVault := 7
    userBalance := fun _ => 1000
    now := 10 }

/-- C5: a successful `claim_winnings` flips `claimed` to `true` and
moves the payout from the vault to the caller in the same commit, and a
second claim on the same position fails with `AlreadyClaimed`, changing
nothing. -/
theorem claim_winnings_once (s : Chain) (user mid : Nat)
    (h : succeeds (.claimWinnings user mid) s = true) :
    (∃ p, (applyOp (.claimWinnings user mid) s).positions (user, mid) =
        some p ∧ p.claimed = true) ∧
    (∃ payout,
      (applyOp (.claimWinnings user mid) s).userBalance user =
        s.userBalance user + payout ∧
      (applyOp (.claimWinnings user mid) s).vault mid + payout =
        s.vault mid) ∧
    runOp (.claimWinnings user mid) (applyOp (.claimWinnings user mid) s) =
      .error .AlreadyClaimed ∧
    applyOp (.claimWinnings user mid) (applyOp (.claimWinnings user mid) s) =
      applyOp (.claimWinnings user mid) s := by
  obtain ⟨s', hs'⟩ := succeeds_iff_ok.mp h
  rw [applyOp_eq_of_ok hs']
  simp only [runOp] at hs'
  obtain ⟨m, p, hm, hp, hres, hcl, hwin, payout, hple, hcommit⟩ :=
    claimWinnings_ok_elim hs'
  subst hcommit
  have hpk : (claimCommit s user mid p payout).positions (user, mid) =
      some { p with claimed := true } := by
    simp [claimCommit]
  have hm2 : (claimCommit s user mid p payout).markets mid = some m := hm
  have hsecond :
      runOp (.claimWinnings user mid) (claimCommit s user mid p payout) =
        .error .AlreadyClaimed := by
    simp only [runOp]
    unfold claimWinnings
    rw [hm2]
    simp [hpk, hres]
  refine ⟨⟨_, hpk, rfl⟩, ⟨payout, ?_, ?_⟩, hsecond, applyOp_eq_of_error hsecond⟩
  · simp [claimCommit]
  · simp only [claimCommit]
    simp
    omega

/-- C5 witness: the winner on the concrete resolved ledger claims once;
the repeat claim fails with `AlreadyClaimed` and commits nothing. -/
theorem claim_winnings_once_witness :
    (∃ p, (applyOp (.claimWinnings 7 3) chain1).positions (7, 3) =
        some p ∧ p.claimed = true) ∧
    (∃ payout,
      (applyOp (.claimWinnings 7 3) chain1).userBalance 7 =
        chain1.userBalance 7 + payout ∧
      (applyOp (.claimWinnings 7 3) chain1).vault 3 + payout =
        chain1.vault 3) ∧
    runOp (.claimWinnings 7 3) (applyOp (.claimWinnings 7 3) chain1) =
      .error .AlreadyClaimed ∧
    applyOp (.claimWinnings 7 3) (applyOp (.claimWinnings 7 3) chain1) =
      applyOp (.claimWinnings 7 3) chain1 :=
  claim_winnings_once chain1 7 3 rfl

/-- C6: a successful `resolve_market` records `resolved = true` with
the supplied outcome, and from then on every further `resolve_market`
on that market — any signer, any outcome — fails with
`MarketAlreadyResolved` and changes nothing. -/
theorem resolve_one_shot (s : Chain) (signer mid : Nat) (oc : Bool)
    (h : succeeds (.resolveMarket signer mid oc) s = true) :
    (∃ m, (applyOp (.resolveMarket signer mid oc) s).markets mid = some m ∧
      m.resolved = true ∧ m.outcome = some oc) ∧
    (∀ (signer2 : Nat) (oc2 : Bool),
      runOp (.resolveMarket signer2 mid oc2)
          (applyOp (.resolveMarket signer mid oc) s) =
        .error .MarketAlreadyResolved ∧
      applyOp (.resolveMarket signer2 mid oc2)
          (applyOp (.resolveMarket signer mid oc) s) =
        applyOp (.resolveMarket signer mid oc) s) := by
  obtain ⟨s', hs'⟩ := succeeds_iff_ok.mp h
  rw [applyOp_eq_of_ok hs']
  simp only [runOp] at hs'
  obtain ⟨m, hm, hres, hsig, htime, hcommit⟩ := resolveMarket_ok_elim hs'
  subst hcommit
  have hmk : ({ s with markets := fun i =>
      (if i = mid then
        some { m with resolved := true, outcome := some oc }
      else s.markets i) }).markets mid =
      some { m with resolved := true, outcome := some oc } := by
    simp
  refine ⟨⟨_, hmk, rfl, rfl⟩, ?_⟩
  intro signer2 oc2
  have hsecond : runOp (.resolveMarket signer2 mid oc2)
      ({ s with markets := fun i =>
        (if i = mid then
          some { m with resolved := true, outcome := some oc }
        else s.markets i) }) = .error .MarketAlreadyResolved := by
    simp only [runOp]
    unfold resolveMarket
    rw [hmk]
    simp
  exact ⟨hsecond, applyOp_eq_of_error hsecond⟩

/-- C6 witness: the overdue open market resolves once on the concrete
ledger; a repeat attempt by another signer with the opposite outcome
fails with `MarketAlreadyResolved` and commits nothing. -/
theorem resolve_one_shot_witness :
    (∃ m, (applyOp (.resolveMarket 1 4 true) chain1).markets 4 = some m ∧
      m.resolved = true ∧ m.outcome = some true) ∧
    (runOp (.resolveMarket 2 4 false)
        (applyOp (.resolveMarket 1 4 true) chain1) =
      .error .MarketAlreadyResolved ∧
    applyOp (.resolveMarket 2 4 false)
        (applyOp (.resolveMarket 1 4 true) chain1) =
      applyOp (.resolveMarket 1 4 true) chain1) :=
  ⟨(resolve_one_shot chain1 1 4 true rfl).1,
   (resolve_one_shot chain1 1 4 true rfl).2 2 false⟩

/-- C7: `resolve_market` signed by anyone other than the protocol
authority fails on every market in every state, and the ledger —
including the market's `resolved` and `outcome` fields — is unchanged. -/
theorem resolve_requires_authority (s : Chain) (signer mid : Nat) (oc : Bool)
    (hne : signer ≠ s.config.authority) :
    succeeds (.resolveMarket signer mid oc) s = false ∧
    applyOp (.resolveMarket signer mid oc) s = s := by
  have herr : ∃ e, runOp (.resolveMarket signer mid oc) s = .error e := by
    simp only [runOp]
    unfold resolveMarket
    cases hm : s.markets mid with
    | none => exact ⟨.AccountMismatch, rfl⟩
    | some m =>
        by_cases hres : m.resolved
        · exact ⟨.MarketAlreadyResolved, by simp [hres]⟩
        · exact ⟨.Unauthorized, by simp [hres, hne]⟩
  obtain ⟨e, he⟩ := herr
  exact ⟨by simp [succeeds, he], applyOp_eq_of_error he⟩

/-- C7 witness: a non-authority signer cannot resolve the concrete open
market and the ledger is untouched. -/
theorem resolve_requires_authority_witness :
    succeeds (.resolveMarket 2 4 true) chain1 = false ∧
    applyOp (.resolveMarket 2 4 true) chain1 = chain1 :=
  resolve_requires_authority chain1 2 4 true (by decide)

/-- Embedded from
`src/app/src/components/prediction-market/my-positions-feature.tsx`
(`ClaimButton`'s `canClaim`): the market is resolved, the position is
unclaimed, and either the outcome is truthy with YES shares held or the
outcome is exactly `false` with NO shares held. -/
def canClaimB (resolved claimed : Bool) (oc : Option Bool)
    (yesShares noShares : Nat) : Bool :=
  resolved && !claimed &&
    ((decide (oc = some true) && decide (0 < yesShares)) ||
     (decide (oc = some false) && decide (0 < noShares)))

/-- C8: `claim_winnings` succeeds only on a winning position — outcome
YES with YES shares or outcome NO with NO shares; on a resolved market a
losing or empty unclaimed position fails with `NotAWinner` and nothing
is paid; and the frontend's claim gate agrees with the engine's winning
test. -/
theorem claim_only_winners :
    (∀ (s : Chain) (user mid : Nat),
      succeeds (.claimWinnings user mid) s = true →
      ∃ m p, s.markets mid = some m ∧ s.positions (user, mid) = some p ∧
        winningB m.outcome p = true) ∧
    (∀ (s : Chain) (user mid : Nat) (m : Market) (p : Position),
      s.markets mid = some m → m.resolved = true →
      s.positions (user, mid) = some p → p.claimed = false →
      winningB m.outcome p = false →
      runOp (.claimWinnings user mid) s = .error .NotAWinner ∧
      applyOp (.claimWinnings user mid) s = s) ∧
    (∀ (rv cl : Bool) (oc : Option Bool) (u mid ys ns : Nat),
      canClaimB rv cl oc ys ns =
        (rv && !cl && winningB oc
          { user := u, market_id := mid, yes_shares := ys,
            no_shares := ns, claimed := cl })) := by
  refine ⟨?_, ?_, ?_⟩
  · intro s user mid h
    obtain ⟨s', hs'⟩ := succeeds_iff_ok.mp h
    simp only [runOp] at hs'
    obtain ⟨m, p, hm, hp, -, -, hwin, -⟩ := claimWinnings_ok_elim hs'
    exact ⟨m, p, hm, hp, hwin⟩
  · intro s user mid m p hm hres hp hcl hnw
    have herr : runOp (.claimWinnings user mid) s = .error .NotAWinner := by
      simp only [runOp]
      unfold claimWinnings
      rw [hm]
      simp [hres, hp, hcl, hnw]
    exact ⟨herr, applyOp_eq_of_error herr⟩
  · intro rv cl oc u mid ys ns
    cases oc with
    | none => simp [canClaimB, winningB]
    | some b => cases b <;> simp [canClaimB, winningB]

/-- C8 witness: on the concrete resolved ledger the winner's successful
claim implies a winning position, the loser's claim fails with
`NotAWinner` without mutation, and the frontend gate agrees with the
engine's winning test at the loser's inputs. -/
theorem claim_only_winners_witness :
    (∃ m p, chain1.markets 3 = some m ∧ chain1.positions (7, 3) = some p ∧
      winningB m.outcome p = true) ∧
    (runOp (.claimWinnings 8 3) chain1 = .error .NotAWinner ∧
      applyOp (.claimWinnings 8 3) chain1 = chain1) ∧
    canClaimB true false (some true) 0 40 =
      (true && !false && winningB (some true)
        { user := 8, market_id := 3, yes_shares := 0, no_shares := 40,
          claimed := false }) :=
  ⟨claim_only_winners.1 chain1 7 3 rfl,
   claim_only_winners.2.1 chain1 8 3 market3 pos8 rfl rfl rfl rfl rfl,
   claim_only_winners.2.2 true false (some true) 8 3 0 40⟩

/-- ASCII bytes of a seed string, as `Buffer.from` produces for the
ASCII seed tags. -/
def asciiBytes (s : String) : List Nat := s.toList.map Char.toNat

/-- The 8-byte little-endian encoding produced by
`new BN(marketId).toArrayLike(Buffer, "le", 8)`. -/
def leBytes8 (n : Nat) : List Nat :=
  (List.range 8).map fun i => n / 256 ^ i % 256

/-- Embedded from `src/unnamed/part_007` (`findMarketPDAs`): the
frontend's market-address seeds `[MARKET_SEED, marketIdBytes]`. -/
def appMarketSeeds (marketId : Nat) : List (List Nat) :=
  [asciiBytes "market", leBytes8 marketId]

/-- Embedded from `src/unnamed/part_007` (`findMarketPDAs`): the
frontend's vault-address seeds `[VAULT_SEED, marketIdBytes]`. -/
def appVaultSeeds (marketId : Nat) : List (List Nat) :=
  [asciiBytes "vault", leBytes8 marketId]

/-- Embedded from `src/unnamed/part_007` (`findUserPositionPDA`): the
frontend's position-address seeds
`[USER_POSITION_SEED, user.toBuffer(), marketIdBytes]`. -/
def appPositionSeeds (user : List Nat) (marketId : Nat) : List (List Nat) :=
  [asciiBytes "position", user, leBytes8 marketId]

/-- Embedded from `tests/capstone2.ts` (market PDA derivation): the test
suite's market-address seeds. -/
def testMarketSeeds (marketId : Nat) : List (List Nat) :=
  [asciiBytes "market", leBytes8 marketId]

/-- Embedded from `tests/capstone2.ts` (vault PDA derivation): the test
suite's vault-address seeds. -/
def testVaultSeeds (marketId : Nat) : List (List Nat) :=
  [asciiBytes "vault", leBytes8 marketId]

/-- Embedded from `tests/capstone2.ts` (user position PDA derivation):
the test suite's position-address seeds. -/
def testPositionSeeds (user : List Nat) (marketId : Nat) : List (List Nat) :=
  [asciiBytes "position", user, leBytes8 marketId]

/-- C10: the frontend and the test suite feed identical seed lists to
the address derivation for markets, vaults and positions, so under any
(deterministic) derivation function and a common program id the two
compute equal addresses for every market id and user key. -/
theorem pda_derivation_equivalent
    (derive : List (List Nat) → Nat → Nat) (programId marketId : Nat)
    (user : List Nat) :
    appMarketSeeds marketId = testMarketSeeds marketId ∧
    appVaultSeeds marketId = testVaultSeeds marketId ∧
    appPositionSeeds user marketId = testPositionSeeds user marketId ∧
    derive (appMarketSeeds marketId) programId =
      derive (testMarketSeeds marketId) programId ∧
    derive (appVaultSeeds marketId) programId =
      derive (testVaultSeeds marketId) programId ∧
    derive (appPositionSeeds user marketId) programId =
      derive (testPositionSeeds user marketId) programId :=
  ⟨rfl, rfl, rfl, rfl, rfl, rfl⟩

end CognitoMarket
